import Mathlib

/-!
Verification development for the document-structure reconstruction core of
the lazyllm-skill repository.

The two engines under scrutiny are:
* `CaptionFootnoteParser._parse_nodes` (src/lazyllm/tools/rag/transform/parser/caption.py)
* `LayoutNodeParser.forward` / `_parse_nodes` / `_calculate_level_by_regex`
  (src/lazyllm/tools/rag/transform/parser/layout.py)

The Python code is shallowly embedded below.  `DocNode` metadata fields that
the engines read or write become fields of a `Node` structure; the Python
`re` module usage is modelled by a small Brzozowski-derivative regular
expression engine over `List Char`, with every pattern of the source
transcribed as a regex term.  Python `re.match` is prefix matching,
`re.search` is substring matching, and a trailing `$` is end-of-string or
just before one final newline.
-/

set_option maxRecDepth 20000

namespace DocStruct

/-- The unit of processing: the projection of a Python `DocNode` onto the
fields read or written by the two engines.  `typ` is `metadata['type']`,
`styleName` is `metadata['style_dict']['style_name']` (absent means the
Python lookup chain yields `''`), `textLevel` is `metadata['text_level']`,
`index` is `metadata['index']`, `fileName` is `metadata['file_name']`,
`imagePath` is `metadata['image_path']`, and the caption/footnote fields are
the attributes written by `_merge_caption_footnote`. -/
structure Node where
  typ : String := ""
  text : String := ""
  styleName : Option String := none
  textLevel : Nat := 0
  index : Nat := 0
  fileName : String := ""
  imagePath : String := ""
  imageCaption : Option String := none
  tableCaption : Option String := none
  equationCaption : Option String := none
  footnote : Option String := none
  imageFootnote : Option String := none
  tableFootnote : Option String := none
  equationFootnote : Option String := none
  deriving Repr, DecidableEq, Inhabited

/-! ### Character classes

Python's `\s` and `\d` on `str` patterns are Unicode categories; the
patterns and inputs of this code only involve ASCII whitespace and
ASCII/fullwidth digits, which is what we model. -/

/-- Python `\s` restricted to the whitespace characters reachable here. -/
def isSpacePy (c : Char) : Bool :=
  c == ' ' || c == '\t' || c == '\n' || c == '\r' || c == '\x0b' || c == '\x0c'

/-- Python `\d` / the source's `AR_NUM = [0-9０-９]` class. -/
def isDigitPy (c : Char) : Bool :=
  ('0' ≤ c && c ≤ '9') || ('０' ≤ c && c ≤ '９')

/-- The source's `DOT = [\.．]` class. -/
def isDot (c : Char) : Bool := c == '.' || c == '．'

/-- The source's `LETTER = [a-zA-Z]` class. -/
def isLetterAZ (c : Char) : Bool :=
  ('a' ≤ c && c ≤ 'z') || ('A' ≤ c && c ≤ 'Z')

/-- The source's `CN_NUM` class. -/
def isCnNum (c : Char) : Bool :=
  "一二三四五六七八九十百千万零壹贰叁肆伍陆柒捌玖拾佰仟".data.contains c

/-- The source's `INVALID_FOLLOW = [^\d\)）\]】\}]` class. -/
def isInvalidFollow (c : Char) : Bool :=
  !(isDigitPy c || c == ')' || c == '）' || c == ']' || c == '】' || c == '}')

/-! ### Python string helpers -/

/-- Python `str.strip()` on a character list. -/
def stripChars (cs : List Char) : List Char :=
  ((cs.dropWhile isSpacePy).reverse.dropWhile isSpacePy).reverse

/-- Python `str.strip()`. -/
def pyStrip (s : String) : String := ⟨stripChars s.data⟩

/-- Python `str.lower()` (ASCII case folding; CJK characters are fixed). -/
def pyLower (s : String) : String := ⟨s.data.map Char.toLower⟩

/-- Python `needle in hay` substring containment on character lists. -/
def subList (needle hay : List Char) : Bool :=
  match hay with
  | [] => needle.isEmpty
  | _ :: t => needle.isPrefixOf hay || subList needle t

/-- Python `needle in hay` substring containment. -/
def pyContains (hay needle : String) : Bool := subList needle.data hay.data

/-- Python `s.startswith(p)`. -/
def pyStartsWith (s p : String) : Bool := p.data.isPrefixOf s.data

/-- Python `text.split('\n')[0]`. -/
def firstLine (s : String) : String := ⟨s.data.takeWhile (· != '\n')⟩

/-! ### A Brzozowski-derivative regex engine

Enough of Python `re` to express every pattern in the two source files.
Matching a character class is a Boolean predicate, so case-insensitive
literals (`re.IGNORECASE`) are folded into the class. -/

/-- Regular expressions over `Char`. -/
inductive RE where
  | fail : RE
  | eps : RE
  | cls : (Char → Bool) → RE
  | cat : RE → RE → RE
  | alt : RE → RE → RE
  | star : RE → RE

namespace RE

/-- Smart alternation (keeps derivative terms small). -/
def altS : RE → RE → RE
  | fail, b => b
  | a, fail => a
  | a, b => alt a b

/-- Smart concatenation. -/
def catS : RE → RE → RE
  | fail, _ => fail
  | _, fail => fail
  | eps, b => b
  | a, eps => a
  | a, b => cat a b

/-- Does the regex accept the empty string? -/
def nullable : RE → Bool
  | fail => false
  | eps => true
  | cls _ => false
  | cat a b => nullable a && nullable b
  | alt a b => nullable a || nullable b
  | star _ => true

/-- Brzozowski derivative with respect to one character. -/
def deriv : RE → Char → RE
  | fail, _ => fail
  | eps, _ => fail
  | cls p, c => if p c then eps else fail
  | cat a b, c =>
      if nullable a then altS (catS (deriv a c) b) (deriv b c)
      else catS (deriv a c) b
  | alt a b, c => altS (deriv a c) (deriv b c)
  | star a, c => catS (deriv a c) (star a)

/-- Whole-string acceptance. -/
def fullmatch (r : RE) : List Char → Bool
  | [] => nullable r
  | c :: cs => fullmatch (deriv r c) cs

/-- Python `re.match`: some prefix of the string is accepted. -/
def pmatch (r : RE) : List Char → Bool
  | [] => nullable r
  | c :: cs => nullable r || pmatch (deriv r c) cs

/-- Python `re.search`: some substring is accepted. -/
def smatch (r : RE) : List Char → Bool
  | [] => nullable r
  | c :: cs => pmatch r (c :: cs) || smatch r cs

/-- Python `re.match` for a pattern ending in `$`: the regex (written
without the `$`) must consume the whole string, or all but one final
newline. -/
def dmatch (r : RE) (cs : List Char) : Bool :=
  fullmatch r cs || (cs.getLast? == some '\n' && fullmatch r cs.dropLast)

/-- A single literal character. -/
def chr (c : Char) : RE := cls (· == c)

/-- A single literal character, case-insensitively (`re.IGNORECASE`). -/
def chrCI (c : Char) : RE := cls (fun x => x.toLower == c.toLower)

/-- A literal string. -/
def str (s : String) : RE := s.data.foldr (fun c r => catS (chr c) r) eps

/-- A literal string, case-insensitively. -/
def strCI (s : String) : RE := s.data.foldr (fun c r => catS (chrCI c) r) eps

/-- `r{n}`: exactly `n` repetitions. -/
def repExact (r : RE) : Nat → RE
  | 0 => eps
  | n + 1 => catS r (repExact r n)

/-- `r{0,n}`: at most `n` repetitions (greediness is irrelevant for
Boolean matching). -/
def repUpTo (r : RE) : Nat → RE
  | 0 => eps
  | n + 1 => altS eps (catS r (repUpTo r n))

/-- `r{lo,hi}`. -/
def repRange (r : RE) (lo hi : Nat) : RE := catS (repExact r lo) (repUpTo r (hi - lo))

/-- `r?`. -/
def opt (r : RE) : RE := altS eps r

/-- `r+`. -/
def plus (r : RE) : RE := catS r (star r)

end RE

open RE

/-- `\s*` -/
def wsStar : RE := star (cls isSpacePy)
/-- `\s?` (the source's `SEP_LOOSE`) -/
def wsOpt : RE := opt (cls isSpacePy)
/-- `\s+` -/
def wsPlus : RE := plus (cls isSpacePy)
/-- `\d` / `AR_NUM` as a regex -/
def arNum : RE := cls isDigitPy
/-- `.` (any character except a newline) -/
def dotAny : RE := cls (· != '\n')
/-- `.*` -/
def dotAnyStar : RE := star dotAny

/-! ### LayoutNodeParser pattern tables (layout.py) -/

namespace Layout

/-- `CONTENT_PATTERN = (?:\s*({INVALID_FOLLOW}.*))` — note it is *not*
optional: at least one non-digit, non-closing-bracket character must follow. -/
def contentRE : RE := catS wsStar (catS (cls isInvalidFollow) dotAnyStar)

/-- `NORMAL_TEMPLATES` bodies: `^(\s*第\s*{CN_NUM}+\s*([篇卷章/节/条]))`. -/
def normalTemplate (markers : List Char) : RE :=
  catS wsStar (catS (str "第") (catS wsStar (catS (plus (cls isCnNum))
    (catS wsStar (cls (markers.contains ·))))))

/-- `_generate_normal_patterns_with_level`. -/
def NORMAL_PATTERNS_WITH_LEVEL : List (RE × Nat) :=
  [(catS (normalTemplate ['篇', '卷', '章']) contentRE, 1),
   (catS (normalTemplate ['节']) contentRE, 2),
   (catS (normalTemplate ['条']) contentRE, 3)]

/-- `num_block = ({DOT}\s*{AR_NUM}{1,3})`. -/
def numBlockRE : RE := catS (cls isDot) (catS wsStar (repRange arNum 1 3))

/-- One depth of `_generate_number_patterns_with_level`:
level 1 is `^(\s*{AR_NUM}{1,2}{DOT}{SEP_LOOSE}){CONTENT_PATTERN}` and
level `L > 1` is `^(\s*{AR_NUM}{1,2}{num_block}^(L-1){SEP_LOOSE}){CONTENT_PATTERN}`. -/
def numberPattern (level : Nat) : RE :=
  if level == 1 then
    catS wsStar (catS (repRange arNum 1 2) (catS (cls isDot) (catS wsOpt contentRE)))
  else
    catS wsStar (catS (repRange arNum 1 2)
      (catS (repExact numBlockRE (level - 1)) (catS wsOpt contentRE)))

/-- `_generate_number_patterns_with_level(max_level=4)`: built for levels
1..4 and then reversed, so the deepest pattern is tried first. -/
def NUMBER_PATTERNS_WITH_LEVEL : List (RE × Nat) :=
  (((List.range 4).map (fun k => (numberPattern (k + 1), k + 1)))).reverse

/-- `TIME_PATTERNS` entry classes: `[零○0０〇ＯΟ一二三四五六七八九十]`. -/
def isCnDateNum (c : Char) : Bool :=
  "零○0０〇ＯΟ一二三四五六七八九十".data.contains c

/-- `[一二三四五六七八九十]` -/
def isCnSmallNum (c : Char) : Bool :=
  "一二三四五六七八九十".data.contains c

/-- `\d{4}年\d{1,2}月\d{1,2}日` -/
def arDate : RE :=
  catS (repExact arNum 4) (catS (str "年") (catS (repRange arNum 1 2)
    (catS (str "月") (catS (repRange arNum 1 2) (str "日")))))

/-- `[零○0０〇ＯΟ一二三四五六七八九十]{4}年[一二三四五六七八九十]{1,2}月[一二三四五六七八九十]{1,3}日` -/
def cnDate : RE :=
  catS (repExact (cls isCnDateNum) 4) (catS (str "年")
    (catS (repRange (cls isCnSmallNum) 1 2) (catS (str "月")
      (catS (repRange (cls isCnSmallNum) 1 3) (str "日")))))

/-- `TIME_PATTERNS`, written without their trailing `$` (they are matched
with `dmatch`). -/
def TIME_PATTERNS : List RE :=
  [catS (repUpTo dotAny 100) (catS wsStar (catS (chr '\n')
     (catS wsStar (catS arDate (catS wsStar (opt (chr '\n'))))))),
   catS wsStar (catS arDate wsStar),
   catS (repUpTo dotAny 100) (catS wsStar (catS (chr '\n')
     (catS wsStar (catS cnDate (catS wsStar (opt (chr '\n'))))))),
   catS wsStar (catS cnDate wsStar),
   catS wsStar (catS (repExact arNum 4) (catS (cls (fun c => isDot c || c == '-'))
     (catS (repRange arNum 1 2) (catS (cls (fun c => isDot c || c == '-'))
       (catS (repRange arNum 1 2) wsStar)))))]

/-- `TOC_PATTERNS`, written without their trailing `$`. -/
def TOC_PATTERNS : List RE :=
  [catS dotAnyStar (catS (cls (fun c => isDot c || c == '·'))
     (catS wsStar (catS (plus arNum) wsStar))),
   catS wsStar (catS (altS arNum (altS (plus (cls (['I', 'V', 'X'].contains ·)))
     (altS (str "附录") (cls isCnNum))))
     (catS dotAnyStar (catS wsPlus (catS (plus arNum) wsStar)))),
   catS wsStar (catS (chr '《') (catS dotAnyStar (catS (chr '》')
     (catS dotAnyStar (catS wsPlus (catS (plus arNum) wsStar))))))]

/-- `_match(node, TIME_PATTERNS + TOC_PATTERNS)`: `re.match` against
`node.text.strip()`; every pattern carries a `$` anchor. -/
def matchTimeToc (node : Node) : Bool :=
  (TIME_PATTERNS ++ TOC_PATTERNS).any (fun r => dmatch r (pyStrip node.text).data)

/-! #### The letter-plus-number pattern with its captured group

`LETTER_NUMBER_PATTERN = ^(\s*{LETTER}{DOT}{AR_NUM}+(?:{DOT}{AR_NUM}+)*)`,
concatenated with `{SEP_LOOSE}{CONTENT_PATTERN}`.  `_calculate_level_by_regex`
reads `match.group(1)`, so the capture under Python's backtracking order
(greedy repetitions, outermost choice points restored last) is modelled
explicitly. -/

/-- All splits of a leading nonempty `AR_NUM+` run, longest first, in
Python's backtracking preference order. -/
def digitSplits (cs : List Char) : List (List Char × List Char) :=
  let run := cs.takeWhile isDigitPy
  let rest := cs.dropWhile isDigitPy
  (List.range run.length).map
    (fun k => (run.take (run.length - k), (run.drop (run.length - k)) ++ rest))

/-- All parses of `(?:{DOT}{AR_NUM}+)*` as (consumed, remainder), in
Python's backtracking preference order: maximal repetitions first, longer
digit runs first, stopping (zero further repetitions) last. -/
def starParses : Nat → List Char → List (List Char × List Char)
  | 0, cs => [([], cs)]
  | fuel + 1, cs =>
    (match cs with
     | d :: rest =>
       if isDot d then
         (digitSplits rest).flatMap (fun p =>
           (starParses fuel p.2).map (fun q => (d :: p.1 ++ q.1, q.2)))
       else []
     | [] => []) ++ [([], cs)]

/-- The follow-context `{SEP_LOOSE}{CONTENT_PATTERN}` of the letter pattern. -/
def letterFollowOK (rest : List Char) : Bool :=
  pmatch (catS wsOpt contentRE) rest

/-- `re.match(LETTER_PATTERNS[0], first_line).group(1)`: the first capture
of the letter-plus-number pattern, or `none` when the pattern fails. -/
def letterGroup1 (cs : List Char) : Option (List Char) :=
  let ws := cs.takeWhile isSpacePy
  match cs.dropWhile isSpacePy with
  | l :: r1 =>
    if isLetterAZ l then
      match r1 with
      | d :: r2 =>
        if isDot d then
          (digitSplits r2).findSome? (fun p =>
            (starParses r2.length p.2).findSome? (fun q =>
              if letterFollowOK q.2 then some (ws ++ l :: d :: (p.1 ++ q.1)) else none))
        else none
      | [] => none
    else none
  | [] => none

/-- Lines 201-204 of layout.py: strip the capture, drop one trailing dot,
split on `DOT`, and count the segments that are nonempty after stripping. -/
def dynamicLevel (g : List Char) : Nat :=
  let s := stripChars g
  let s := if (s.getLastD ' ' |> isDot) then s.dropLast else s
  let segments := (s.splitOnP isDot)
  (segments.filter (fun seg => stripChars seg ≠ [])).length

/-- Stage 1 of `_calculate_level_by_regex` (lines 191-195): the first
matching decimal-numbering pattern, tried deepest first. -/
def decimalLevelOf (fl : List Char) : Option Nat :=
  (NUMBER_PATTERNS_WITH_LEVEL.find? (fun p => pmatch p.1 fl)).map (fun p => p.2)

/-- Stage 2 (lines 197-204): the letter-plus-number pattern with its
dynamically computed level. -/
def letterLevelOf (fl : List Char) : Option Nat :=
  (letterGroup1 fl).map dynamicLevel

/-- Stage 3 (lines 206-209): the Chinese ordinal section markers. -/
def normalLevelOf (fl : List Char) : Option Nat :=
  (NORMAL_PATTERNS_WITH_LEVEL.find? (fun p => pmatch p.1 fl)).map (fun p => p.2)

/-- The three-stage cascade of `_calculate_level_by_regex`, each stage
returning on its first match. -/
def levelCascade (fl : List Char) : Nat :=
  match decimalLevelOf fl with
  | some l => l
  | none =>
    match letterLevelOf fl with
    | some l => l
    | none =>
      match normalLevelOf fl with
      | some l => l
      | none => 0

/-- `_calculate_level_by_regex`: strip, take the first line, strip, run
the cascade. -/
def calculateLevelByRegex (text : String) : Nat :=
  if text.data = [] then 0
  else levelCascade (pyStrip (firstLine (pyStrip text))).data

/-- The body of the `for node in nodes` loop of
`LayoutNodeParser._parse_nodes`, which touches each node independently. -/
def parseNode (node : Node) : Node :=
  if node.textLevel > 1 then node
  else if matchTimeToc node then { node with textLevel := 0 }
  else if node.textLevel == 1 && node.typ == "text" then
    let regexLevel := calculateLevelByRegex node.text
    if regexLevel > 0 then { node with textLevel := regexLevel } else node
  else node

/-- `LayoutNodeParser._parse_nodes`: appends `parseNode` of each input node
in order. -/
def parseNodes : List Node → List Node
  | [] => []
  | n :: rest => parseNode n :: parseNodes rest

/-- `{n with index := i}` (`node._metadata['index'] = i`). -/
def setIndex (n : Node) (i : Nat) : Node := { n with index := i }

/-- `_reset_node_index`, generalised over the first index handed out. -/
def resetFrom (k : Nat) : List Node → List Node
  | [] => []
  | n :: rest => setIndex n k :: resetFrom (k + 1) rest

/-- `_reset_node_index`. -/
def resetNodeIndex (nodes : List Node) : List Node := resetFrom 0 nodes

/-- A stable insertion into a sorted list: `x` goes before the first
element strictly greater under `lt`. -/
def insertSorted (lt : Node → Node → Bool) (x : Node) : List Node → List Node
  | [] => [x]
  | y :: rest => if lt x y then x :: y :: rest else y :: insertSorted lt x rest

/-- A stable sort (the model of Python's `sorted`, which is stable). -/
def sortStable (lt : Node → Node → Bool) : List Node → List Node
  | [] => []
  | x :: rest => insertSorted lt x (sortStable lt rest)

/-- `itertools.groupby`: maximal runs of consecutive elements with equal
keys. -/
def groupRuns (eqk : Node → Node → Bool) : List Node → List (List Node)
  | [] => []
  | x :: xs =>
    match groupRuns eqk xs with
    | [] => [[x]]
    | [] :: gs => [x] :: [] :: gs
    | (y :: g) :: gs =>
      if eqk x y then (x :: y :: g) :: gs else [x] :: (y :: g) :: gs

/-- `LayoutNodeParser.forward`: sort by `file_name`, group consecutive
equal file names, sort each group by `index`, run `_parse_nodes` per group,
concatenate, and reset the global index. -/
def forward (document : List Node) : List Node :=
  let nodes := sortStable (fun a b => a.fileName < b.fileName) document
  let groups := groupRuns (fun a b => a.fileName == b.fileName) nodes
  resetNodeIndex ((groups.map
    (fun g => parseNodes (sortStable (fun a b => a.index < b.index) g))).flatten)

end Layout

/-! ### CaptionFootnoteParser (caption.py) -/

namespace Caption

open Layout (setIndex resetFrom resetNodeIndex)

/-- One entry of `TYPE_CONFIG`. -/
structure TypeConfig where
  patterns : List RE
  contentKeywords : List String
  styleExclude : List String
  styleKeywords : List String

/-- A numbering pattern `<label>\s*\d+[\.\-\d]*`, case-insensitive
(`re.IGNORECASE` is passed at every use site). -/
def numberingPattern (label : RE) : RE :=
  catS label (catS wsStar (catS (plus arNum)
    (star (cls (fun c => isDot c || c == '-' || isDigitPy c)))))

/-- `TYPE_CONFIG['image']`. -/
def imageConfig : TypeConfig :=
  { patterns := [numberingPattern (strCI "图"), numberingPattern (strCI "Figure"),
                 numberingPattern (catS (strCI "Fig") (chr '.'))]
    contentKeywords := ["图", "figure", "fig"]
    styleExclude := ["表", "table", "tab", "公式", "equation", "eq"]
    styleKeywords := ["图", "figure", "caption", "图题", "图标题", "figure caption", "题注"] }

/-- `TYPE_CONFIG['table']`. -/
def tableConfig : TypeConfig :=
  { patterns := [numberingPattern (strCI "表"), numberingPattern (strCI "Table"),
                 numberingPattern (catS (strCI "Tab") (chr '.'))]
    contentKeywords := ["表", "table", "tab"]
    styleExclude := ["图", "figure", "fig", "公式", "equation", "eq"]
    styleKeywords := ["表", "table", "caption", "表题", "表标题", "table caption", "题注"] }

/-- `TYPE_CONFIG['equation']`. -/
def equationConfig : TypeConfig :=
  { patterns := [numberingPattern (strCI "公式"), numberingPattern (strCI "Equation"),
                 numberingPattern (catS (strCI "Eq") (chr '.'))]
    contentKeywords := ["公式", "equation", "eq"]
    styleExclude := ["表", "table", "tab", "图", "figure", "fig"]
    styleKeywords := ["公式", "equation", "caption", "公式题", "equation caption", "题注"] }

/-- `TYPE_CONFIG.get(t, TYPE_CONFIG['table'])`. -/
def typeConfig (t : String) : TypeConfig :=
  if t == "image" then imageConfig
  else if t == "equation" then equationConfig
  else tableConfig

/-- The `style_name` a node presents to the style checks: Python's
`metadata.get('style_dict', {}).get('style_name', '').lower()` — an absent
style resolves to the empty string, never an error. -/
def styleNameOf (node : Node) : String := pyLower (node.styleName.getD "")

/-- `_is_caption(node, target_type)`. -/
def isCaption (node : Node) (targetType : String) : Bool :=
  if node.typ != "text" then false
  else
    let content := pyStrip node.text
    if content == "" then false
    else
      let config := typeConfig targetType
      let sn := styleNameOf node
      if config.styleExclude.any (fun k => pyContains sn k) then false
      else if config.styleKeywords.any (fun k => pyContains sn k) then true
      else config.patterns.any (fun p => smatch p content.data)

/-- The footnote note-prefix patterns (`re.search` with `re.IGNORECASE`). -/
def footnoteStartPatterns : List RE :=
  [catS (strCI "注") (catS wsStar (catS (cls (fun c => c == '：' || c == ':')) wsStar)),
   catS (strCI "Note") (catS wsStar (catS (cls (fun c => c == '：' || c == ':')) wsStar)),
   catS (strCI "说明") (catS wsStar (catS (cls (fun c => c == '：' || c == ':')) wsStar))]

/-- The footnote marker patterns (`re.search`, case-sensitive). -/
def footnoteMarkerPatterns : List RE :=
  [cls (['*', '★', '☆', '※'].contains ·),
   cls (['①', '②', '③', '④', '⑤', '⑥', '⑦', '⑧', '⑨', '⑩'].contains ·),
   catS (chr '[') (catS (plus arNum) (chr ']')),
   catS (chr '(') (catS (plus arNum) (chr ')'))]

/-- `footnote_config['style_keywords']`. -/
def footnoteStyleKeywords : List String := ["footnote", "脚注", "尾注", "note", "说明"]

/-- `_is_footnote(node)`. -/
def isFootnote (node : Node) : Bool :=
  if node.typ != "text" then false
  else
    let content := pyStrip node.text
    if content == "" then false
    else
      let sn := styleNameOf node
      if footnoteStyleKeywords.any (fun k => pyContains sn k) then true
      else if footnoteStartPatterns.any (fun p => smatch p content.data) then true
      else footnoteMarkerPatterns.any (fun p => smatch p content.data)

/-- The competing-candidate score of lines 89-104: +2 for **each** content
keyword the stripped content starts with, +3 for **each** numbering
pattern matching at the start of the content (`re.match`). -/
def captionScore (content : String) (config : TypeConfig) : Nat :=
  (config.contentKeywords.foldl
    (fun acc k => if pyStartsWith content k then acc + 2 else acc) 0)
  + (config.patterns.foldl
    (fun acc p => if pmatch p content.data then acc + 3 else acc) 0)

/-- One planning entry: `(anchor index, (caption index, footnote index))`. -/
abbrev PlanEntry := Nat × (Option Nat × Option Nat)

/-- The planning-pass state: `merge_info` (kept in insertion order) and
`merged_indices`. -/
structure PlanState where
  mergeInfo : List PlanEntry := []
  merged : List Nat := []
  deriving Repr, DecidableEq

/-- `nodes[j]` (every use site is in bounds). -/
def getN (all : List Node) (j : Nat) : Node := (all.get? j).getD default

/-- Lines 66-71: the predecessor caption candidate. -/
def prevCandidate (all : List Node) (i : Nat) (t : String) (merged : List Nat) :
    Option Nat :=
  if i == 0 then none
  else
    match all.get? (i - 1) with
    | some p =>
      if p.typ == "text" && !(merged.contains (i - 1)) && isCaption p t then
        some (i - 1)
      else none
    | none => none

/-- Lines 73-78: the successor caption candidate. -/
def nextCandidate (all : List Node) (i : Nat) (t : String) (merged : List Nat) :
    Option Nat :=
  match all.get? (i + 1) with
  | some nx =>
    if nx.typ == "text" && !(merged.contains (i + 1)) && isCaption nx t then
      some (i + 1)
    else none
  | none => none

/-- Lines 81-111: resolve the caption when both sides qualify (higher
score first, ties to the predecessor via `prev_score >= next_score`). -/
def chooseCaption (all : List Node) (t : String) :
    Option Nat → Option Nat → Option Nat
  | some p, some q =>
    let config := typeConfig t
    let prevContent := pyStrip (getN all p).text
    let nextContent := pyStrip (getN all q).text
    if captionScore prevContent config ≥ captionScore nextContent config then some p
    else some q
  | some p, none => some p
  | none, some q => some q
  | none, none => none

/-- Lines 113-117: `check_start` — immediately after the caption when the
caption follows the anchor, otherwise immediately after the anchor. -/
def checkStartOf (i : Nat) (capIdx : Option Nat) : Nat :=
  match capIdx with
  | some c => if c > i then c + 1 else i + 1
  | none => i + 1

/-- Lines 119-124: the footnote slot. -/
def footnoteIndex (all : List Node) (i : Nat) (capIdx : Option Nat)
    (merged : List Nat) : Option Nat :=
  match all.get? (checkStartOf i capIdx) with
  | some fn =>
    if fn.typ == "text" && !(merged.contains (checkStartOf i capIdx)) && isFootnote fn then
      some (checkStartOf i capIdx)
    else none
  | none => none

/-- Lines 62-111 combined: the caption index planned for anchor `i`. -/
def capIdxAt (all : List Node) (i : Nat) (t : String) (merged : List Nat) : Option Nat :=
  chooseCaption all t (prevCandidate all i t merged) (nextCandidate all i t merged)

/-- One iteration of the planning loop (lines 52-134) at anchor index `i`:
record the `(caption, footnote)` pair when either exists (lines 126-128) and
mark both chosen indices claimed (lines 130-134). -/
def planStep (all : List Node) (i : Nat) (n : Node) (st : PlanState) : PlanState :=
  if n.typ == "image" || n.typ == "table" || n.typ == "equation" then
    { mergeInfo :=
        if (capIdxAt all i n.typ st.merged).isSome
            || (footnoteIndex all i (capIdxAt all i n.typ st.merged) st.merged).isSome then
          st.mergeInfo
            ++ [(i, (capIdxAt all i n.typ st.merged,
                  footnoteIndex all i (capIdxAt all i n.typ st.merged) st.merged))]
        else st.mergeInfo
      merged := st.merged ++ (capIdxAt all i n.typ st.merged).toList
          ++ (footnoteIndex all i (capIdxAt all i n.typ st.merged) st.merged).toList }
  else st

/-- The planning pass, driven over the node list with its running index. -/
def planAux (all : List Node) : Nat → List Node → PlanState → PlanState
  | _, [], st => st
  | i, n :: rest, st => planAux all (i + 1) rest (planStep all i n st)

/-- The full planning pass over an input sequence. -/
def capPlan (all : List Node) : PlanState := planAux all 0 all {}

/-- `_merge_caption_footnote(node, caption_node, footnote_node)`: build the
merged node (metadata deep-copied from the anchor, attribute fields set,
text assembled per anchor type, parts joined by a line break). -/
def mergeCaptionFootnote (saveImage : Bool) (node : Node)
    (captionNode footnoteNode : Option Node) : Node :=
  let captionText := match captionNode with
    | some c => pyStrip c.text
    | none => ""
  let footnoteText := match footnoteNode with
    | some f => pyStrip f.text
    | none => ""
  let m := node
  let m := if captionText != "" then
      (if node.typ == "image" then { m with imageCaption := some captionText }
       else if node.typ == "table" then { m with tableCaption := some captionText }
       else if node.typ == "equation" then { m with equationCaption := some captionText }
       else m)
    else m
  let m := if footnoteText != "" then
      let m := { m with footnote := some footnoteText }
      (if node.typ == "image" then { m with imageFootnote := some footnoteText }
       else if node.typ == "table" then { m with tableFootnote := some footnoteText }
       else if node.typ == "equation" then { m with equationFootnote := some footnoteText }
       else m)
    else m
  let textParts : List String :=
    if node.typ == "image" then
      if saveImage then
        (if captionText != "" then ["![" ++ captionText ++ "](" ++ node.imagePath ++ ")"]
         else ["![](" ++ node.imagePath ++ ")"])
      else if captionText != "" then [captionText]
      else []
    else
      ((if captionText != "" then [captionText] else [])
        ++ (if node.text != "" then [node.text] else []))
  let textParts := textParts ++ (if footnoteText != "" then [footnoteText] else [])
  { m with text := String.intercalate "\n" textParts }

/-- The output block emitted for the unclaimed original index `i`
(merged for a planned anchor, verbatim otherwise), before the output
`index` is reassigned. -/
def emitAt (saveImage : Bool) (all : List Node) (st : PlanState) (i : Nat)
    (n : Node) : Node :=
  match st.mergeInfo.lookup i with
  | some (c, f) =>
    mergeCaptionFootnote saveImage n (c.bind (all.get? ·)) (f.bind (all.get? ·))
  | none => n

/-- The merge pass (lines 136-157): skip claimed indices, emit each
surviving block with its output `index` set to its emission position. -/
def mergePassAux (saveImage : Bool) (all : List Node) (st : PlanState) :
    Nat → List Node → List Node → List Node
  | _, [], acc => acc
  | i, n :: rest, acc =>
    if st.merged.contains i then mergePassAux saveImage all st (i + 1) rest acc
    else
      mergePassAux saveImage all st (i + 1) rest
        (acc ++ [setIndex (emitAt saveImage all st i n) acc.length])

/-- `CaptionFootnoteParser._parse_nodes`. -/
def parseNodes (saveImage : Bool) (nodes : List Node) : List Node :=
  if nodes.isEmpty then nodes
  else mergePassAux saveImage nodes (capPlan nodes) 0 nodes []

end Caption

/-! ### Spec-side definitions

For corrected claims, a second definition transcribes the claim's words
(not the code) so the claim as stated can be confronted with the code. -/

namespace SpecSide

open Layout

/-- The caption-candidate scoring as C5's words state it: "+2 if its
content starts with a content keyword for the anchor's type and +3 if it
matches a numbering pattern anchored at the start of the content" — a
single +2 and a single +3, not one per keyword/pattern. -/
def claimedCaptionScore (content : String) (config : Caption.TypeConfig) : Nat :=
  (if config.contentKeywords.any (fun k => pyStartsWith content k) then 2 else 0)
  + (if config.patterns.any (fun p => pmatch p content.data) then 3 else 0)

/-- The caption choice C5 claims: higher claimed score wins, ties go to
the predecessor. -/
def claimedCaptionChoice (prevContent nextContent : String)
    (config : Caption.TypeConfig) (p q : Nat) : Nat :=
  if claimedCaptionScore prevContent config ≥ claimedCaptionScore nextContent config
  then p else q

/-- The label of the depth-`d` decimal-numbering pattern (the part of
`numberPattern` before `CONTENT_PATTERN`). -/
def decimalLabel (d : Nat) : RE :=
  if d == 1 then catS wsStar (catS (repRange arNum 1 2) (catS (cls isDot) wsOpt))
  else catS wsStar (catS (repRange arNum 1 2) (catS (repExact numBlockRE (d - 1)) wsOpt))

/-- Depth-`d` decimal matching as C6's words state it: the label "may be
followed either by end-of-line or by a non-numeric, non-closing-bracket
character" — i.e. the code's pattern, or the label consuming the entire
line. -/
def claimedDepthMatch (d : Nat) (fl : List Char) : Bool :=
  pmatch (numberPattern d) fl || fullmatch (decimalLabel d) fl

/-- The level C6 claims for the decimal family: the deepest matching
depth, depths tried 4 before 3 before 2 before 1. -/
def claimedDecimalLevel (fl : List Char) : Nat :=
  if claimedDepthMatch 4 fl then 4
  else if claimedDepthMatch 3 fl then 3
  else if claimedDepthMatch 2 fl then 2
  else if claimedDepthMatch 1 fl then 1
  else 0

/-- The letter-plus-number label as C7's words state it: "a single letter,
a dot, then one or more dot-separated numeric groups" — with no
requirement on what follows.  The greedy capture: maximal digit runs and
maximal group count. -/
def claimedLetterGroups : Nat → List Char → List Char
  | 0, _ => []
  | fuel + 1, cs =>
    match cs with
    | d :: rest =>
      if isDot d then
        let run := rest.takeWhile isDigitPy
        if run.isEmpty then []
        else d :: run ++ claimedLetterGroups fuel (rest.dropWhile isDigitPy)
      else []
    | [] => []

/-- The full claimed letter-pattern capture (no follow-context check). -/
def claimedLetterGroup1 (cs : List Char) : Option (List Char) :=
  let ws := cs.takeWhile isSpacePy
  match cs.dropWhile isSpacePy with
  | l :: r1 =>
    if isLetterAZ l then
      match r1 with
      | d :: r2 =>
        if isDot d then
          let run := r2.takeWhile isDigitPy
          if run.isEmpty then none
          else some (ws ++ l :: d :: run
            ++ claimedLetterGroups r2.length (r2.dropWhile isDigitPy))
        else none
      | [] => none
    else none
  | [] => none

/-- The level C7 claims for a letter-pattern match: the count of non-empty
dot-separated segments of the matched label. -/
def claimedLetterLevel (fl : List Char) : Option Nat :=
  (claimedLetterGroup1 fl).map dynamicLevel

end SpecSide

/-! ### Structural lemmas about the layout engine -/

namespace Layout

theorem parseNodes_eq_map (l : List Node) : parseNodes l = l.map parseNode := by
  induction l with
  | nil => rfl
  | cons n rest ih => simp [parseNodes, ih]

theorem parseNode_of_gt_one {n : Node} (h : n.textLevel > 1) : parseNode n = n := by
  unfold parseNode
  rw [if_pos h]

theorem parseNode_suppressed {n : Node} (h1 : n.textLevel ≤ 1)
    (h2 : matchTimeToc n = true) : (parseNode n).textLevel = 0 := by
  unfold parseNode
  rw [if_neg (by omega), if_pos h2]

theorem map_index_resetFrom (l : List Node) (k : Nat) :
    (resetFrom k l).map Node.index = List.range' k l.length := by
  induction l generalizing k with
  | nil => rfl
  | cons n rest ih => simp [resetFrom, List.range'_succ, setIndex, ih]

theorem length_resetFrom (l : List Node) (k : Nat) :
    (resetFrom k l).length = l.length := by
  induction l generalizing k with
  | nil => rfl
  | cons n rest ih => simp [resetFrom, ih]

theorem setIndex_self {n : Node} {k : Nat} (h : n.index = k) : setIndex n k = n := by
  cases n
  simp_all [setIndex]

theorem resetFrom_of_dense (l : List Node) (k : Nat)
    (h : l.map Node.index = List.range' k l.length) : resetFrom k l = l := by
  induction l generalizing k with
  | nil => rfl
  | cons n rest ih =>
    simp only [List.map_cons, List.length_cons, List.range'_succ] at h
    obtain ⟨h1, h2⟩ := List.cons.inj h
    simp [resetFrom, setIndex_self h1, ih (k + 1) h2]

theorem map_index_resetNodeIndex (l : List Node) :
    (resetNodeIndex l).map Node.index = List.range (resetNodeIndex l).length := by
  rw [resetNodeIndex, map_index_resetFrom, length_resetFrom, List.range_eq_range']

end Layout

/-! ### Structural lemmas about the caption engine -/

namespace Caption

open Layout (setIndex resetFrom resetNodeIndex)

theorem mergePassAux_index (si : Bool) (all : List Node) (st : PlanState) :
    ∀ (rest : List Node) (i : Nat) (acc : List Node),
      acc.map Node.index = List.range acc.length →
      (mergePassAux si all st i rest acc).map Node.index
        = List.range (mergePassAux si all st i rest acc).length := by
  intro rest
  induction rest with
  | nil => intro i acc h; simpa [mergePassAux] using h
  | cons n rest' ih =>
    intro i acc h
    rw [mergePassAux]
    split
    · exact ih (i + 1) acc h
    · refine ih (i + 1) _ ?_
      simp [setIndex, h, List.range_succ]

theorem parseNodes_index (si : Bool) (ns : List Node) :
    (parseNodes si ns).map Node.index = List.range (parseNodes si ns).length := by
  unfold parseNodes
  split
  · rename_i h
    rw [List.isEmpty_iff] at h
    subst h
    rfl
  · exact mergePassAux_index si ns (capPlan ns) ns 0 [] rfl

theorem drop_eq_cons {l : List Node} : ∀ {i : Nat} {n : Node} {rest : List Node},
    l.drop i = n :: rest → l.get? i = some n ∧ l.drop (i + 1) = rest := by
  induction l with
  | nil => intro i n rest h; simp at h
  | cons x xs ih =>
    intro i n rest h
    cases i with
    | zero =>
      simp only [List.drop_zero] at h
      obtain ⟨h1, h2⟩ := List.cons.inj h
      subst h1; subst h2
      exact ⟨rfl, by simp⟩
    | succ j =>
      simp only [List.drop_succ_cons] at h
      obtain ⟨h1, h2⟩ := ih h
      exact ⟨h1, by simpa using h2⟩

/-- The merge pass characterised: the output consists of exactly the
blocks at unclaimed original indices, in order, emitted (merged or
verbatim) with output indices reassigned densely. -/
theorem mergePassAux_eq (si : Bool) (all : List Node) (st : PlanState) :
    ∀ (rest : List Node) (i : Nat) (acc : List Node), rest = all.drop i →
      mergePassAux si all st i rest acc
        = acc ++ resetFrom acc.length
            (((List.range' i rest.length).filter (fun j => !st.merged.contains j)).map
              (fun j => emitAt si all st j (getN all j))) := by
  intro rest
  induction rest with
  | nil => intro i acc _; simp [mergePassAux, resetFrom]
  | cons n rest' ih =>
    intro i acc hdrop
    obtain ⟨hget, hdrop'⟩ := drop_eq_cons hdrop.symm
    have hgetN : getN all i = n := by
      unfold getN
      rw [hget]
      rfl
    rw [mergePassAux]
    by_cases hmem : st.merged.contains i = true
    · rw [if_pos hmem, ih (i + 1) acc hdrop'.symm, List.length_cons, List.range'_succ,
        List.filter_cons]
      have hb : (!st.merged.contains i) = false := by rw [hmem]; rfl
      rw [hb]
      simp only [Bool.false_eq_true, if_false]
    · rw [if_neg hmem, ih (i + 1) _ hdrop'.symm, List.length_cons, List.range'_succ,
        List.filter_cons]
      have hb : (!st.merged.contains i) = true := by
        rw [Bool.not_eq_true] at hmem
        rw [hmem]
        rfl
      rw [hb]
      simp only [if_true]
      rw [List.map_cons, hgetN, resetFrom, List.append_assoc]
      simp

/-- `_parse_nodes` characterised in terms of the plan. -/
theorem parseNodes_eq_filter (si : Bool) (ns : List Node) :
    parseNodes si ns
      = resetNodeIndex
          (((List.range ns.length).filter
              (fun j => !(capPlan ns).merged.contains j)).map
            (fun j => emitAt si ns (capPlan ns) j (getN ns j))) := by
  unfold parseNodes
  split
  · rename_i h
    rw [List.isEmpty_iff] at h
    subst h
    rfl
  · rw [mergePassAux_eq si ns (capPlan ns) ns 0 [] rfl]
    simp [resetNodeIndex, List.range_eq_range']

/-! #### Invariants of the planning pass -/

/-- The indices an entry claims (its caption and footnote indices). -/
def claimsOf (e : PlanEntry) : List Nat := e.2.1.toList ++ e.2.2.toList

theorem prevCandidate_eq_some {all : List Node} {i : Nat} {t : String}
    {merged : List Nat} {c : Nat} (h : prevCandidate all i t merged = some c) :
    c ∉ merged ∧ c + 1 = i ∧ c < all.length := by
  unfold prevCandidate at h
  split at h
  · exact absurd h (by simp)
  · rename_i h0
    have h0' : i ≠ 0 := by simpa using h0
    split at h
    · rename_i p hget
      split at h
      · rename_i hcond
        injection h with hc
        obtain ⟨h1, _⟩ := List.get?_eq_some.mp hget
        subst hc
        refine ⟨?_, by omega, by omega⟩
        simp only [Bool.and_eq_true, Bool.not_eq_true'] at hcond
        intro hmem
        have hfalse : merged.elem (i - 1) = false := hcond.1.2
        rw [List.elem_iff.mpr hmem] at hfalse
        cases hfalse
      · exact absurd h (by simp)
    · exact absurd h (by simp)

theorem nextCandidate_eq_some {all : List Node} {i : Nat} {t : String}
    {merged : List Nat} {c : Nat} (h : nextCandidate all i t merged = some c) :
    c ∉ merged ∧ c = i + 1 ∧ c < all.length := by
  unfold nextCandidate at h
  split at h
  · rename_i nx hget
    split at h
    · rename_i hcond
      injection h with hc
      obtain ⟨h1, _⟩ := List.get?_eq_some.mp hget
      subst hc
      refine ⟨?_, rfl, h1⟩
      simp only [Bool.and_eq_true, Bool.not_eq_true'] at hcond
      intro hmem
      have hfalse : merged.elem (i + 1) = false := hcond.1.2
      rw [List.elem_iff.mpr hmem] at hfalse
      cases hfalse
    · exact absurd h (by simp)
  · exact absurd h (by simp)

theorem chooseCaption_eq_some {all : List Node} {t : String}
    {p q : Option Nat} {c : Nat} (h : chooseCaption all t p q = some c) :
    p = some c ∨ q = some c := by
  cases p with
  | none =>
    cases q with
    | none => exact absurd h (by simp [chooseCaption])
    | some q' =>
      simp only [chooseCaption] at h
      exact Or.inr h
  | some p' =>
    cases q with
    | none =>
      simp only [chooseCaption] at h
      exact Or.inl (by simpa using h)
    | some q' =>
      simp only [chooseCaption] at h
      split at h
      · exact Or.inl (by simpa using h)
      · exact Or.inr h

theorem checkStartOf_cases (i : Nat) (capIdx : Option Nat) :
    checkStartOf i capIdx = i + 1
      ∨ ∃ c, capIdx = some c ∧ i < c ∧ checkStartOf i capIdx = c + 1 := by
  cases capIdx with
  | none => exact Or.inl rfl
  | some c =>
    by_cases hgt : c > i
    · exact Or.inr ⟨c, rfl, hgt, by simp [checkStartOf, hgt]⟩
    · left
      simp [checkStartOf, hgt]

theorem footnoteIndex_eq_some {all : List Node} {i : Nat} {capIdx : Option Nat}
    {merged : List Nat} {f : Nat} (h : footnoteIndex all i capIdx merged = some f) :
    f ∉ merged ∧ f < all.length ∧ f = checkStartOf i capIdx := by
  unfold footnoteIndex at h
  split at h
  · rename_i fn hget
    split at h
    · rename_i hcond
      injection h with hc
      obtain ⟨h1, _⟩ := List.get?_eq_some.mp hget
      subst hc
      refine ⟨?_, h1, rfl⟩
      simp only [Bool.and_eq_true, Bool.not_eq_true'] at hcond
      intro hmem
      have hfalse : merged.elem (checkStartOf i capIdx) = false := hcond.1.2
      rw [List.elem_iff.mpr hmem] at hfalse
      cases hfalse
    · exact absurd h (by simp)
  · exact absurd h (by simp)

theorem checkStartOf_gt (i : Nat) (capIdx : Option Nat) : i < checkStartOf i capIdx := by
  cases capIdx with
  | none => exact Nat.lt_succ_self i
  | some c =>
    simp only [checkStartOf]
    split <;> omega

theorem checkStartOf_ne_some {i c : Nat} {capIdx : Option Nat}
    (h : capIdx = some c) : checkStartOf i capIdx ≠ c := by
  subst h
  simp only [checkStartOf]
  split <;> omega

theorem checkStartOf_range {i : Nat} {capIdx : Option Nat}
    (hc : ∀ c, capIdx = some c → c + 1 = i ∨ c = i + 1) :
    checkStartOf i capIdx = i + 1 ∨ checkStartOf i capIdx = i + 2 := by
  cases capIdx with
  | none => exact Or.inl rfl
  | some c =>
    rcases hc c rfl with h | h
    · left
      simp only [checkStartOf]
      rw [if_neg (by omega)]
    · right
      simp only [checkStartOf]
      rw [if_pos (by omega)]
      omega

/-- The caption index chosen for anchor `i` is `i - 1` or `i + 1`, unclaimed
and in bounds. -/
theorem capIdx_facts {all : List Node} {i : Nat} {t : String} {merged : List Nat}
    {c : Nat}
    (h : chooseCaption all t (prevCandidate all i t merged)
          (nextCandidate all i t merged) = some c) :
    c ∉ merged ∧ (c + 1 = i ∨ c = i + 1) ∧ c < all.length := by
  rcases chooseCaption_eq_some h with hp | hq
  · obtain ⟨h1, h2, h3⟩ := prevCandidate_eq_some hp
    exact ⟨h1, Or.inl h2, h3⟩
  · obtain ⟨h1, h2, h3⟩ := nextCandidate_eq_some hq
    exact ⟨h1, Or.inr h2, h3⟩

/-- The master invariant of the planning pass after processing all anchors
below `i`. -/
structure PlanInv (all : List Node) (i : Nat) (st : PlanState) : Prop where
  anchorsLt : ∀ e ∈ st.mergeInfo, e.1 < i
  mergedIff : ∀ j, j ∈ st.merged ↔ ∃ e ∈ st.mergeInfo, j ∈ claimsOf e
  mergedNodup : st.merged.Nodup
  disjoint : st.mergeInfo.Pairwise (fun e1 e2 => ∀ j, j ∈ claimsOf e1 → j ∉ claimsOf e2)
  capNeFn : ∀ e ∈ st.mergeInfo, ∀ c, e.2.1 = some c → ∀ f, e.2.2 = some f → c ≠ f
  capRange : ∀ e ∈ st.mergeInfo, ∀ c, e.2.1 = some c → c + 1 = e.1 ∨ c = e.1 + 1
  fnRange : ∀ e ∈ st.mergeInfo, ∀ f, e.2.2 = some f → f = e.1 + 1 ∨ f = e.1 + 2
  claimsLt : ∀ e ∈ st.mergeInfo, ∀ j ∈ claimsOf e, j < all.length
  mergedCount : st.merged.length =
    (st.mergeInfo.filterMap (fun e => e.2.1)).length
      + (st.mergeInfo.filterMap (fun e => e.2.2)).length

theorem planInv_init (all : List Node) : PlanInv all 0 {} := by
  constructor <;> simp [claimsOf]

theorem filterMap_fst_singleton (i : Nat) (cap fn : Option Nat) :
    List.filterMap (fun e : PlanEntry => e.2.1) [(i, (cap, fn))] = cap.toList := by
  cases cap <;> rfl

theorem filterMap_snd_singleton (i : Nat) (cap fn : Option Nat) :
    List.filterMap (fun e : PlanEntry => e.2.2) [(i, (cap, fn))] = fn.toList := by
  cases fn <;> rfl

/-- `planStep` preserves the planning invariant. -/
theorem planStep_inv {all : List Node} {i : Nat} {st : PlanState} (n : Node)
    (inv : PlanInv all i st) : PlanInv all (i + 1) (planStep all i n st) := by
  unfold planStep
  split
  · set cap := capIdxAt all i n.typ st.merged with hcap
    set fn := footnoteIndex all i cap st.merged with hfn
    clear_value cap fn
    have capF : ∀ c, cap = some c →
        c ∉ st.merged ∧ (c + 1 = i ∨ c = i + 1) ∧ c < all.length := by
      intro c hc
      rw [hcap] at hc
      unfold capIdxAt at hc
      exact capIdx_facts hc
    have fnF : ∀ f, fn = some f →
        f ∉ st.merged ∧ f < all.length ∧ f = checkStartOf i cap := by
      intro f hf
      rw [hfn] at hf
      exact footnoteIndex_eq_some hf
    have fnRange' : ∀ f, fn = some f → f = i + 1 ∨ f = i + 2 := by
      intro f hf
      obtain ⟨-, -, hcs⟩ := fnF f hf
      have := checkStartOf_range (fun c hc => (capF c hc).2.1)
      omega
    have capNeFn' : ∀ c f, cap = some c → fn = some f → c ≠ f := by
      intro c f hc hf
      obtain ⟨-, -, hcs⟩ := fnF f hf
      have := checkStartOf_ne_some (i := i) hc
      omega
    have newNotOld : ∀ j, j ∈ cap.toList ++ fn.toList → j ∉ st.merged := by
      intro j hj
      rcases List.mem_append.mp hj with hj | hj
      · exact (capF j (Option.mem_def.mp (Option.mem_toList.mp hj))).1
      · exact (fnF j (Option.mem_def.mp (Option.mem_toList.mp hj))).1
    have newLt : ∀ j, j ∈ cap.toList ++ fn.toList → j < all.length := by
      intro j hj
      rcases List.mem_append.mp hj with hj | hj
      · exact (capF j (Option.mem_def.mp (Option.mem_toList.mp hj))).2.2
      · exact (fnF j (Option.mem_def.mp (Option.mem_toList.mp hj))).2.1
    have newNodup : (cap.toList ++ fn.toList).Nodup := by
      rcases hc : cap with _ | c <;> rcases hf : fn with _ | f <;> simp
      exact capNeFn' c f hc hf
    by_cases hsome : (cap.isSome || fn.isSome) = true
    · rw [if_pos hsome]
      refine
        { anchorsLt := ?_, mergedIff := ?_, mergedNodup := ?_, disjoint := ?_,
          capNeFn := ?_, capRange := ?_, fnRange := ?_, claimsLt := ?_,
          mergedCount := ?_ }
      · intro e he
        rcases List.mem_append.mp he with he | he
        · exact Nat.lt_succ_of_lt (inv.anchorsLt e he)
        · rw [List.mem_singleton] at he
          subst he
          exact Nat.lt_succ_self i
      · intro j
        constructor
        · intro hj
          rw [List.append_assoc, List.mem_append] at hj
          rcases hj with hj | hj
          · obtain ⟨e, he, hje⟩ := (inv.mergedIff j).mp hj
            exact ⟨e, List.mem_append_left _ he, hje⟩
          · exact ⟨(i, (cap, fn)),
              List.mem_append_right _ (List.mem_singleton_self _), hj⟩
        · rintro ⟨e, he, hje⟩
          rcases List.mem_append.mp he with he | he
          · have hm := (inv.mergedIff j).mpr ⟨e, he, hje⟩
            exact List.mem_append_left _ (List.mem_append_left _ hm)
          · rw [List.mem_singleton] at he
            subst he
            rw [List.append_assoc]
            exact List.mem_append_right _ hje
      · rw [List.append_assoc, List.nodup_append]
        exact ⟨inv.mergedNodup, newNodup, fun a ha hb => newNotOld a hb ha⟩
      · rw [List.pairwise_append]
        refine ⟨inv.disjoint, List.pairwise_singleton _ _, ?_⟩
        intro e1 he1 e2 he2 j hj1
        rw [List.mem_singleton] at he2
        subst he2
        intro hj2
        exact newNotOld j hj2 ((inv.mergedIff j).mpr ⟨e1, he1, hj1⟩)
      · intro e he c hc f hf
        rcases List.mem_append.mp he with he | he
        · exact inv.capNeFn e he c hc f hf
        · rw [List.mem_singleton] at he
          subst he
          exact capNeFn' c f hc hf
      · intro e he c hc
        rcases List.mem_append.mp he with he | he
        · exact inv.capRange e he c hc
        · rw [List.mem_singleton] at he
          subst he
          exact (capF c hc).2.1
      · intro e he f hf
        rcases List.mem_append.mp he with he | he
        · exact inv.fnRange e he f hf
        · rw [List.mem_singleton] at he
          subst he
          exact fnRange' f hf
      · intro e he j hj
        rcases List.mem_append.mp he with he | he
        · exact inv.claimsLt e he j hj
        · rw [List.mem_singleton] at he
          subst he
          exact newLt j hj
      · rw [List.append_assoc, List.length_append, List.length_append,
          List.filterMap_append, List.filterMap_append,
          filterMap_fst_singleton, filterMap_snd_singleton,
          List.length_append, List.length_append, inv.mergedCount]
        omega
    · rw [if_neg hsome]
      have hcapn : cap = none := by
        rcases hc : cap with _ | c
        · rfl
        · rw [hc] at hsome
          simp at hsome
      have hfnn : fn = none := by
        rcases hf : fn with _ | f
        · rfl
        · rw [hf] at hsome
          simp at hsome
      rw [hcapn, hfnn]
      simp only [Option.toList_none, List.append_nil]
      exact
        { anchorsLt := fun e he => Nat.lt_succ_of_lt (inv.anchorsLt e he),
          mergedIff := inv.mergedIff, mergedNodup := inv.mergedNodup,
          disjoint := inv.disjoint, capNeFn := inv.capNeFn,
          capRange := inv.capRange, fnRange := inv.fnRange,
          claimsLt := inv.claimsLt, mergedCount := inv.mergedCount }
  · exact
      { anchorsLt := fun e he => Nat.lt_succ_of_lt (inv.anchorsLt e he),
        mergedIff := inv.mergedIff, mergedNodup := inv.mergedNodup,
        disjoint := inv.disjoint, capNeFn := inv.capNeFn,
        capRange := inv.capRange, fnRange := inv.fnRange,
        claimsLt := inv.claimsLt, mergedCount := inv.mergedCount }

theorem planAux_inv (all : List Node) :
    ∀ (rest : List Node) (i : Nat) (st : PlanState), PlanInv all i st →
      ∃ k, PlanInv all k (planAux all i rest st) := by
  intro rest
  induction rest with
  | nil => exact fun i st inv => ⟨i, inv⟩
  | cons n rest' ih =>
    intro i st inv
    exact ih (i + 1) (planStep all i n st) (planStep_inv n inv)

theorem capPlan_inv (all : List Node) : ∃ k, PlanInv all k (capPlan all) :=
  planAux_inv all all 0 {} (planInv_init all)

/-- Reading the whole list back through `getN` is the identity. -/
theorem map_getN_range (l : List Node) : (List.range l.length).map (getN l) = l := by
  induction l with
  | nil => rfl
  | cons a l ih =>
    rw [List.length_cons, List.range_succ_eq_map, List.map_cons, List.map_map]
    have hcomp : getN (a :: l) ∘ Nat.succ = getN l := funext fun j => rfl
    rw [hcomp, ih]
    rfl

/-- Counting survivors: removing a duplicate-free set of in-range indices
from `0..n-1` leaves `n` minus its size. -/
theorem filter_not_contains_length {m : List Nat} {n : Nat} (hnd : m.Nodup)
    (hlt : ∀ j ∈ m, j < n) :
    ((List.range n).filter (fun j => !m.contains j)).length + m.length = n := by
  have hsplit := List.length_eq_length_filter_add (l := List.range n)
    (fun j => !m.contains j)
  rw [List.length_range] at hsplit
  have hperm : List.Perm ((List.range n).filter (fun j => !(!m.contains j))) m := by
    rw [List.perm_ext_iff_of_nodup (List.Nodup.filter _ (List.nodup_range n)) hnd]
    intro a
    simp only [List.mem_filter, List.mem_range, Bool.not_not]
    constructor
    · intro ⟨_, hc⟩
      exact List.elem_iff.mp hc
    · intro ha
      exact ⟨hlt a ha, List.elem_iff.mpr ha⟩
  rw [hperm.length_eq] at hsplit
  omega

end Caption

namespace Layout

/-- The generator output evaluated: deepest patterns first. -/
theorem NUMBER_PATTERNS_WITH_LEVEL_eq :
    NUMBER_PATTERNS_WITH_LEVEL
      = [(numberPattern 4, 4), (numberPattern 3, 3), (numberPattern 2, 2),
         (numberPattern 1, 1)] := rfl

/-- The decimal stage as a cascade of the four depth patterns. -/
theorem decimalLevelOf_char (fl : List Char) :
    decimalLevelOf fl
      = if pmatch (numberPattern 4) fl then some 4
        else if pmatch (numberPattern 3) fl then some 3
        else if pmatch (numberPattern 2) fl then some 2
        else if pmatch (numberPattern 1) fl then some 1
        else none := by
  rw [decimalLevelOf, NUMBER_PATTERNS_WITH_LEVEL_eq]
  cases h4 : pmatch (numberPattern 4) fl
    <;> cases h3 : pmatch (numberPattern 3) fl
    <;> cases h2 : pmatch (numberPattern 2) fl
    <;> cases h1 : pmatch (numberPattern 1) fl
    <;> simp [List.find?, h4, h3, h2, h1]

end Layout

/-! ### The claims

One theorem per claim, preceded by concrete example inputs used by
counterexamples and witnesses. -/

/-- Five blocks: a caption, an image, a footnote, a table, a caption. -/
def c1ex : List Node :=
  [{ typ := "text", text := "图 1" },
   { typ := "image", imagePath := "a.png", index := 1 },
   { typ := "text", text := "注: a", index := 2 },
   { typ := "table", text := "|a|b|", index := 3 },
   { typ := "text", text := "表 2", index := 4 }]

/-- An image whose footnote claim removes the block separating it from a
caption candidate. -/
def c2ex : List Node :=
  [{ typ := "image", imagePath := "a.png" },
   { typ := "text", text := "Note: x", index := 1 },
   { typ := "text", text := "Figure 1", index := 2 }]

/-- A table-of-contents-shaped line arriving with heading level 2. -/
def c3cex : Node := { typ := "text", text := "3.1 目录标题 4", textLevel := 2 }

/-- A table-of-contents-shaped line arriving as a level-1 candidate. -/
def c3wex : Node := { typ := "text", text := "3.1 一般规定 6", textLevel := 1 }

/-- A timestamp line already finalized at level 3. -/
def c4wex : Node := { typ := "text", text := "2024年3月5日", textLevel := 3 }

/-- An image flanked by two caption candidates whose accumulated scores
differ (5 for the predecessor, 7 for the successor) though each side has
at least one keyword and one pattern match. -/
def c5ex : List Node :=
  [{ typ := "text", text := "图 1" },
   { typ := "image", imagePath := "a.png", index := 1 },
   { typ := "text", text := "figure 2", index := 2 }]

/-- An image flanked by two equally scored caption candidates. -/
def c5wex : List Node :=
  [{ typ := "text", text := "图 1" },
   { typ := "image", imagePath := "a.png", index := 1 },
   { typ := "text", text := "图 2", index := 2 }]

/-- A table with a preceding caption and a following footnote. -/
def c10ex : List Node :=
  [{ typ := "text", text := "Table 3" },
   { typ := "table", text := "|x|", index := 1 },
   { typ := "text", text := "注: source", index := 2 }]

/-- **C1**: for every input to `CaptionFootnoteParser._parse_nodes`, the
index sets claimed by distinct anchors are pairwise disjoint, an index
claimed as a caption of one anchor is never also claimed as a footnote of
any anchor, and the output consists of exactly the blocks at unclaimed
original indices (so every consumed block is absent from the output and no
block is consumed by more than one anchor). -/
theorem claim1_consumption_exclusivity (ns : List Node) :
    (∀ e1 ∈ (Caption.capPlan ns).mergeInfo, ∀ e2 ∈ (Caption.capPlan ns).mergeInfo,
        e1.1 ≠ e2.1 → ∀ j ∈ Caption.claimsOf e1, j ∉ Caption.claimsOf e2)
    ∧ (∀ e1 ∈ (Caption.capPlan ns).mergeInfo, ∀ e2 ∈ (Caption.capPlan ns).mergeInfo,
        ∀ c f, e1.2.1 = some c → e2.2.2 = some f → c ≠ f)
    ∧ (∀ si, Caption.parseNodes si ns
        = Layout.resetNodeIndex
            (((List.range ns.length).filter
                (fun j => !(Caption.capPlan ns).merged.contains j)).map
              (fun j => Caption.emitAt si ns (Caption.capPlan ns) j
                (Caption.getN ns j)))) := by
  obtain ⟨k, inv⟩ := Caption.capPlan_inv ns
  have hsymm : Symmetric (fun e1 e2 : Caption.PlanEntry =>
      ∀ j, j ∈ Caption.claimsOf e1 → j ∉ Caption.claimsOf e2) := by
    intro a b hab j hjb hja
    exact hab j hja hjb
  have hpair := inv.disjoint.forall hsymm
  refine ⟨?_, ?_, fun si => Caption.parseNodes_eq_filter si ns⟩
  · intro e1 he1 e2 he2 hne j hj
    exact hpair he1 he2 (fun heq => hne (by rw [heq])) j hj
  · intro e1 he1 e2 he2 c f hc hf
    by_cases heq : e1 = e2
    · subst heq
      exact inv.capNeFn e1 he1 c hc f hf
    · intro hcf
      subst hcf
      have hc1 : c ∈ Caption.claimsOf e1 :=
        List.mem_append_left _ (Option.mem_toList.mpr (Option.mem_def.mpr hc))
      have hc2 : c ∈ Caption.claimsOf e2 :=
        List.mem_append_right _ (Option.mem_toList.mpr (Option.mem_def.mpr hf))
      exact hpair he1 he2 heq c hc1 hc2

/-- Witness for C1 at `c1ex`, whose plan records anchors 1 and 3 with
claims `{0, 2}` and `{4}`. -/
theorem claim1_consumption_exclusivity_witness :
    (2 : Nat) ∉ Caption.claimsOf (3, (some 4, none)) ∧ (4 : Nat) ≠ 2 := by
  have h := claim1_consumption_exclusivity c1ex
  refine ⟨h.1 (1, (some 0, some 2)) (by decide) (3, (some 4, none)) (by decide)
    (by decide) 2 (by decide), ?_⟩
  exact h.2.1 (3, (some 4, none)) (by decide) (1, (some 0, some 2)) (by decide)
    4 2 (by decide) (by decide)

/-- **C2** (counterexample): running the engine twice is *not* the same as
running it once.  On `c2ex` the first run claims "Note: x" as the image's
footnote, which brings "Figure 1" adjacent to the merged image block, and
the second run then claims it as a caption (3 blocks → 2 blocks → 1 block). -/
theorem claim2_counterexample :
    Caption.parseNodes true (Caption.parseNodes true c2ex)
      ≠ Caption.parseNodes true c2ex := by decide

/-- **C2** (amended): running the engine twice yields the same output as
running it once *provided* the second run's planning pass records no
claims on the first run's output; in general a first-run claim can remove
an intervening block and expose a new caption or footnote candidate to an
anchor, making the second run merge further. -/
theorem claim2_conditional_idempotence (si : Bool) (ns : List Node)
    (h : (Caption.capPlan (Caption.parseNodes si ns)).mergeInfo = []) :
    Caption.parseNodes si (Caption.parseNodes si ns) = Caption.parseNodes si ns := by
  set out := Caption.parseNodes si ns with hout
  have hmerged : (Caption.capPlan out).merged = [] := by
    obtain ⟨k, inv⟩ := Caption.capPlan_inv out
    rw [List.eq_nil_iff_forall_not_mem]
    intro j hj
    obtain ⟨e, he, -⟩ := (inv.mergedIff j).mp hj
    rw [h] at he
    exact List.not_mem_nil e he
  rw [Caption.parseNodes_eq_filter si out]
  have hfilter : (List.range out.length).filter
      (fun j => !(Caption.capPlan out).merged.contains j) = List.range out.length := by
    apply List.filter_eq_self.mpr
    intro a _
    rw [hmerged]
    rfl
  rw [hfilter]
  have hemit : ∀ j ∈ List.range out.length,
      Caption.emitAt si out (Caption.capPlan out) j (Caption.getN out j)
        = Caption.getN out j := by
    intro j _
    unfold Caption.emitAt
    rw [h]
    rfl
  rw [List.map_congr_left hemit, Caption.map_getN_range out]
  unfold Layout.resetNodeIndex
  apply Layout.resetFrom_of_dense
  rw [← List.range_eq_range']
  exact Caption.parseNodes_index si ns

/-- Witness for C2 (amended) at a one-block input the engine fixes. -/
theorem claim2_conditional_idempotence_witness :
    Caption.parseNodes true (Caption.parseNodes true [{ typ := "text", text := "hello" }])
      = Caption.parseNodes true [{ typ := "text", text := "hello" }] :=
  claim2_conditional_idempotence true _ (by decide)

/-- **C3** (counterexample): a block matching a table-of-contents pattern
(and, here, also a depth-2 numbering pattern) that arrives with
`heading_level = 2` keeps level 2 in the output — suppression is skipped
entirely for blocks with `heading_level > 1`, so "regardless of the
block's prior heading_level value" fails. -/
theorem claim3_counterexample :
    Layout.matchTimeToc c3cex = true
    ∧ pmatch (Layout.numberPattern 2) (pyStrip c3cex.text).data = true
    ∧ (Layout.forward [c3cex]).map Node.textLevel = [2] := by decide

/-- **C3** (amended): for every block with `heading_level ≤ 1` whose
content matches a timestamp or table-of-contents pattern, the engine
forces `heading_level` to 0 in the output, even when the content also
matches a numbering pattern (the suppression check runs first). -/
theorem claim3_suppression_amended (ns : List Node) (i : Nat) (h : i < ns.length)
    (h2 : i < (Layout.parseNodes ns).length)
    (hle : (ns.get ⟨i, h⟩).textLevel ≤ 1)
    (hm : Layout.matchTimeToc (ns.get ⟨i, h⟩) = true) :
    ((Layout.parseNodes ns).get ⟨i, h2⟩).textLevel = 0 := by
  have hmap := Layout.parseNodes_eq_map ns
  rw [List.get_of_eq hmap ⟨i, h2⟩, List.get_map]
  exact Layout.parseNode_suppressed hle hm

/-- Witness for C3 (amended) at a level-1 table-of-contents line that also
matches the depth-2 numbering pattern. -/
theorem claim3_suppression_amended_witness :
    ((Layout.parseNodes [c3wex]).get ⟨0, by decide⟩).textLevel = 0 :=
  claim3_suppression_amended [c3wex] 0 (by decide) (by decide) (by decide) (by decide)

/-- **C4**: every block entering `LayoutNodeParser._parse_nodes` with
`heading_level > 1` is emitted completely unchanged, regardless of its
content — it is not reprocessed even by the timestamp/table-of-contents
suppression rules. -/
theorem claim4_finalized_immunity (ns : List Node) (i : Nat) (h : i < ns.length)
    (h2 : i < (Layout.parseNodes ns).length)
    (hgt : (ns.get ⟨i, h⟩).textLevel > 1) :
    (Layout.parseNodes ns).get ⟨i, h2⟩ = ns.get ⟨i, h⟩ := by
  have hmap := Layout.parseNodes_eq_map ns
  rw [List.get_of_eq hmap ⟨i, h2⟩, List.get_map]
  exact Layout.parseNode_of_gt_one hgt

/-- Witness for C4 at a finalized level-3 block whose content matches a
timestamp pattern. -/
theorem claim4_finalized_immunity_witness :
    (Layout.parseNodes [c4wex]).get ⟨0, by decide⟩
      = ([c4wex] : List Node).get ⟨0, by decide⟩ :=
  claim4_finalized_immunity [c4wex] 0 (by decide) (by decide) (by decide)

/-- **C5** (counterexample): the claimed single "+2 / +3" scoring ties at
5–5 on `c5ex` (both sides have a keyword prefix and a start-anchored
pattern match), so the claim demands the predecessor (index 0); the code
accumulates +2 per matching keyword and +3 per matching pattern, scoring
"figure 2" at 7 (`figure` and `fig` both prefix-match), and records the
successor (index 2) as the caption. -/
theorem claim5_counterexample :
    Caption.prevCandidate c5ex 1 "image" [] = some 0
    ∧ Caption.nextCandidate c5ex 1 "image" [] = some 2
    ∧ (Caption.capPlan c5ex).mergeInfo = [(1, (some 2, none))]
    ∧ SpecSide.claimedCaptionScore (pyStrip "图 1") (Caption.typeConfig "image")
        = SpecSide.claimedCaptionScore (pyStrip "figure 2") (Caption.typeConfig "image")
    ∧ SpecSide.claimedCaptionChoice (pyStrip "图 1") (pyStrip "figure 2")
        (Caption.typeConfig "image") 0 2 = 0 := by decide

/-- **C5** (amended): whenever both the predecessor and the successor of
an anchor qualify as caption candidates, each candidate scores +2 for
*each* content keyword its content starts with and +3 for *each* numbering
pattern matching at the start of its content; the planning pass records
the higher-scoring candidate, the predecessor on ties. -/
theorem claim5_scoring_amended (all : List Node) (i : Nat) (n : Node)
    (st : Caption.PlanState) (p q : Nat)
    (hanchor : (n.typ == "image" || n.typ == "table" || n.typ == "equation") = true)
    (hp : Caption.prevCandidate all i n.typ st.merged = some p)
    (hq : Caption.nextCandidate all i n.typ st.merged = some q) :
    (Caption.planStep all i n st).mergeInfo
      = st.mergeInfo
        ++ [(i, (some (if Caption.captionScore (pyStrip (Caption.getN all p).text)
                    (Caption.typeConfig n.typ)
                  ≥ Caption.captionScore (pyStrip (Caption.getN all q).text)
                    (Caption.typeConfig n.typ) then p else q),
            Caption.footnoteIndex all i
              (some (if Caption.captionScore (pyStrip (Caption.getN all p).text)
                    (Caption.typeConfig n.typ)
                  ≥ Caption.captionScore (pyStrip (Caption.getN all q).text)
                    (Caption.typeConfig n.typ) then p else q)) st.merged))] := by
  have hcap : Caption.capIdxAt all i n.typ st.merged
      = some (if Caption.captionScore (pyStrip (Caption.getN all p).text)
            (Caption.typeConfig n.typ)
          ≥ Caption.captionScore (pyStrip (Caption.getN all q).text)
            (Caption.typeConfig n.typ) then p else q) := by
    unfold Caption.capIdxAt
    rw [hp, hq]
    simp only [Caption.chooseCaption]
    rw [apply_ite some]
  unfold Caption.planStep
  rw [if_pos hanchor]
  simp only [hcap, Option.isSome_some, Bool.true_or, if_true]

/-- Witness for C5 (amended) at `c5wex`, where both sides score 5 and the
tie goes to the predecessor (index 0). -/
theorem claim5_scoring_amended_witness :
    (Caption.planStep c5wex 1 { typ := "image", imagePath := "a.png", index := 1 }
        {}).mergeInfo
      = [(1, (some 0, none))] := by
  rw [claim5_scoring_amended c5wex 1 _ {} 0 2 (by decide) (by decide) (by decide)]
  decide

/-- **C6** (counterexample): the claim allows a decimal label to be
followed by end-of-line, so it assigns `"1.2"` depth 2; the code's
`CONTENT_PATTERN` is not optional, so `_calculate_level_by_regex "1.2"`
is 0 and the block keeps `heading_level = 1` instead of being overwritten
with 2. -/
theorem claim6_counterexample :
    SpecSide.claimedDecimalLevel "1.2".data = 2
    ∧ Layout.decimalLevelOf "1.2".data = none
    ∧ Layout.calculateLevelByRegex "1.2" = 0 := by decide

/-- **C6** (amended): the decimal stage returns the depth of the
deepest-matching pattern (depths tried 4 before 3 before 2 before 1), and
it returns at least `d` whenever depth `d` matches; each depth requires a
literal dot between numeric groups and the matched label must be followed
(after optional whitespace) by a non-numeric, non-closing-bracket
character — a label at end-of-line does not match, so `"1.2"` alone
matches no depth while `"1.2 Scope"` yields level 2, which overwrites
`heading_level`. -/
theorem claim6_decimal_family_amended :
    (∀ (fl : List Char) (d : Nat), Layout.decimalLevelOf fl = some d →
        pmatch (Layout.numberPattern d) fl = true
        ∧ ∀ d', d < d' → d' ≤ 4 → pmatch (Layout.numberPattern d') fl = false)
    ∧ (∀ (fl : List Char) (d : Nat), 1 ≤ d → d ≤ 4 →
        pmatch (Layout.numberPattern d) fl = true →
        ∃ d', Layout.decimalLevelOf fl = some d' ∧ d ≤ d')
    ∧ Layout.decimalLevelOf "1.2 Scope".data = some 2
    ∧ Layout.decimalLevelOf "1.2".data = none
    ∧ (Layout.parseNodes [{ typ := "text", text := "1.2 Scope", textLevel := 1 }]).map
        Node.textLevel = [2] := by
  refine ⟨?_, ?_, by decide, by decide, by decide⟩
  · intro fl d h
    rw [Layout.decimalLevelOf_char] at h
    split_ifs at h with h4 h3 h2 h1
    · injection h with hd
      subst hd
      exact ⟨h4, fun d' hlt hle => (Nat.lt_irrefl 4 (Nat.lt_of_lt_of_le hlt hle)).elim⟩
    · injection h with hd
      subst hd
      refine ⟨h3, fun d' hlt hle => ?_⟩
      have hd' : d' = 4 := by omega
      subst hd'
      exact Bool.eq_false_iff.mpr h4
    · injection h with hd
      subst hd
      refine ⟨h2, fun d' hlt hle => ?_⟩
      interval_cases d'
      · exact Bool.eq_false_iff.mpr h3
      · exact Bool.eq_false_iff.mpr h4
    · injection h with hd
      subst hd
      refine ⟨h1, fun d' hlt hle => ?_⟩
      interval_cases d'
      · exact Bool.eq_false_iff.mpr h2
      · exact Bool.eq_false_iff.mpr h3
      · exact Bool.eq_false_iff.mpr h4
  · intro fl d h1d h4d hp
    rw [Layout.decimalLevelOf_char]
    split_ifs with h4 h3 h2 h1
    · exact ⟨4, rfl, by omega⟩
    · refine ⟨3, rfl, ?_⟩
      have hne4 : d ≠ 4 := fun he => h4 (he ▸ hp)
      omega
    · refine ⟨2, rfl, ?_⟩
      have hne4 : d ≠ 4 := fun he => h4 (he ▸ hp)
      have hne3 : d ≠ 3 := fun he => h3 (he ▸ hp)
      omega
    · refine ⟨1, rfl, ?_⟩
      have hne4 : d ≠ 4 := fun he => h4 (he ▸ hp)
      have hne3 : d ≠ 3 := fun he => h3 (he ▸ hp)
      have hne2 : d ≠ 2 := fun he => h2 (he ▸ hp)
      omega
    · exfalso
      interval_cases d
      · exact h1 hp
      · exact h2 hp
      · exact h3 hp
      · exact h4 hp

/-- Witness for C6 (amended): depth 2 matches `"1.2 Scope"` and no deeper
depth does. -/
theorem claim6_decimal_family_amended_witness :
    pmatch (Layout.numberPattern 2) "1.2 Scope".data = true
    ∧ pmatch (Layout.numberPattern 3) "1.2 Scope".data = false := by
  have h := claim6_decimal_family_amended.1 "1.2 Scope".data 2 (by decide)
  exact ⟨h.1, h.2 3 (by decide) (by decide)⟩

/-- **C7** (counterexample): the claim's letter pattern ("a single letter,
a dot, then one or more dot-separated numeric groups") matches `"A.1"`
with level 2, but the code's pattern additionally requires a following
non-numeric, non-closing-bracket character, so `"A.1"` alone yields 0 and
the block keeps `heading_level = 1`. -/
theorem claim7_counterexample :
    SpecSide.claimedLetterLevel "A.1".data = some 2
    ∧ Layout.letterGroup1 (pyStrip (firstLine (pyStrip "A.1"))).data = none
    ∧ Layout.calculateLevelByRegex "A.1" = 0 := by decide

/-- **C7** (amended): when the first line matches no decimal pattern but
the letter-plus-number pattern matches with capture `g` (the label must be
followed, after optional whitespace, by a non-numeric, non-closing-bracket
character), the computed level is the count of non-empty dot-separated
segments of `g`; `"A.1 Intro"` yields 2 and `"A.1.2 Appendix detail"`
yields 3, which overwrites `heading_level`. -/
theorem claim7_letter_level_amended :
    (∀ (s : String) (g : List Char),
        Layout.decimalLevelOf (pyStrip (firstLine (pyStrip s))).data = none →
        Layout.letterGroup1 (pyStrip (firstLine (pyStrip s))).data = some g →
        Layout.calculateLevelByRegex s = Layout.dynamicLevel g)
    ∧ Layout.calculateLevelByRegex "A.1 Intro" = 2
    ∧ Layout.calculateLevelByRegex "A.1.2 Appendix detail" = 3
    ∧ (Layout.parseNodes
        [{ typ := "text", text := "A.1.2 Appendix detail", textLevel := 1 }]).map
        Node.textLevel = [3] := by
  refine ⟨?_, by decide, by decide, by decide⟩
  intro s g hdec hlet
  unfold Layout.calculateLevelByRegex
  by_cases hempty : s.data = []
  · exfalso
    have hs : s = "" := by
      cases s
      simp_all
    subst hs
    rw [show (pyStrip (firstLine (pyStrip ""))).data = [] from rfl] at hlet
    rw [show Layout.letterGroup1 [] = none from rfl] at hlet
    exact Option.noConfusion hlet
  · rw [if_neg hempty]
    simp only [Layout.levelCascade, hdec, Layout.letterLevelOf, hlet]
    rfl

/-- Witness for C7 (amended) at `"A.1.2 Appendix detail"`, whose capture
is `"A.1.2"`. -/
theorem claim7_letter_level_amended_witness :
    Layout.calculateLevelByRegex "A.1.2 Appendix detail"
      = Layout.dynamicLevel "A.1.2".data :=
  claim7_letter_level_amended.1 "A.1.2 Appendix detail" "A.1.2".data
    (by decide) (by decide)

/-- **C8**: the count law — the output length plus the number of caption
claims plus the number of footnote claims equals the input length
(equivalently, `len(output) = len(input) - captions - footnotes`). -/
theorem claim8_count_law (si : Bool) (ns : List Node) :
    (Caption.parseNodes si ns).length
      + ((Caption.capPlan ns).mergeInfo.filterMap (fun e => e.2.1)).length
      + ((Caption.capPlan ns).mergeInfo.filterMap (fun e => e.2.2)).length
      = ns.length := by
  obtain ⟨k, inv⟩ := Caption.capPlan_inv ns
  rw [Caption.parseNodes_eq_filter si ns]
  unfold Layout.resetNodeIndex
  rw [Layout.length_resetFrom, List.length_map]
  have hlt : ∀ j ∈ (Caption.capPlan ns).merged, j < ns.length := by
    intro j hj
    obtain ⟨e, he, hje⟩ := (inv.mergedIff j).mp hj
    exact inv.claimsLt e he j hje
  have hcount := Caption.filter_not_contains_length inv.mergedNodup hlt
  rw [inv.mergedCount] at hcount
  omega

/-- **C9**: position density — both engines emit `index` values exactly
`0, 1, ..., len(output)-1` in emission order. -/
theorem claim9_position_density :
    (∀ (si : Bool) (ns : List Node),
        (Caption.parseNodes si ns).map Node.index
          = List.range (Caption.parseNodes si ns).length)
    ∧ (∀ ns : List Node,
        (Layout.forward ns).map Node.index = List.range (Layout.forward ns).length) := by
  exact ⟨Caption.parseNodes_index, fun ns => Layout.map_index_resetNodeIndex _⟩

/-- **C10**: locality of claims — a recorded caption index is `i - 1` or
`i + 1`, a recorded footnote index is `i + 1` or `i + 2` (always strictly
greater than the anchor index `i`), and the caption and footnote indices
of one anchor are never equal. -/
theorem claim10_locality (ns : List Node) (e : Caption.PlanEntry)
    (he : e ∈ (Caption.capPlan ns).mergeInfo) :
    (∀ c, e.2.1 = some c → c + 1 = e.1 ∨ c = e.1 + 1)
    ∧ (∀ f, e.2.2 = some f → (f = e.1 + 1 ∨ f = e.1 + 2) ∧ e.1 < f)
    ∧ (∀ c f, e.2.1 = some c → e.2.2 = some f → c ≠ f) := by
  obtain ⟨k, inv⟩ := Caption.capPlan_inv ns
  refine ⟨inv.capRange e he, fun f hf => ⟨inv.fnRange e he f hf, ?_⟩,
    fun c f hc hf => inv.capNeFn e he c hc f hf⟩
  have := inv.fnRange e he f hf
  omega

/-- Witness for C10 at `c10ex`, whose plan records `(1, (some 0, some 2))`. -/
theorem claim10_locality_witness :
    ((0 : Nat) + 1 = 1 ∨ (0 : Nat) = 1 + 1)
    ∧ (((2 : Nat) = 1 + 1 ∨ (2 : Nat) = 1 + 2) ∧ 1 < 2)
    ∧ (0 : Nat) ≠ 2 := by
  have h := claim10_locality c10ex (1, (some 0, some 2)) (by decide)
  exact ⟨h.1 0 rfl, h.2.1 2 rfl, h.2.2 0 2 rfl rfl⟩

end DocStruct
